import Mathlib

/-!
Verification of the pydrag normalization and batch-scrobble layer.

The Python source is shallowly embedded.  Python values flowing through
`from_dict` / `to_dict` are modelled by the inductive type `PVal`
(dictionaries keep insertion order, as in Python 3.7+); code that can
raise returns `Except PyErr`; the attrs-generated constructor of each
model class is modelled by `construct` over a per-class field schema
that mirrors the class declaration (field order, declared type, default).
-/

/-- Python exceptions that the embedded code can raise. -/
inductive PyErr where
  | keyError (key : String)
  | typeError (msg : String)
  | valueError (msg : String)
  | attributeError (msg : String)
deriving DecidableEq, Repr

/-- A Python value as it appears in decoded JSON payloads and in attrs model
instances.  `obj cls fields` is an attrs model instance (distinct from a
plain dict: `BaseModel.to_dict` filters raw dicts but recurses into model
instances); `none` is Python `None`, the absent-field marker.  Python floats
are modelled with exact rational arithmetic. -/
inductive PVal where
  | none
  | str (s : String)
  | int (n : Int)
  | float (q : Rat)
  | bool (b : Bool)
  | pydict (entries : List (String × PVal))
  | pylist (elems : List PVal)
  | obj (cls : String) (fields : List (String × PVal))

/-- `d[k]` lookup on an insertion-ordered dictionary. -/
def dictGet? (d : List (String × PVal)) (k : String) : Option PVal :=
  (d.find? (fun p => p.1 == k)).map Prod.snd

/-- `d[k] = v` on an insertion-ordered dictionary: replaces the value in
place if the key exists (keeping its position), otherwise appends. -/
def dictSet (d : List (String × PVal)) (k : String) (v : PVal) : List (String × PVal) :=
  match d with
  | [] => [(k, v)]
  | (k', v') :: rest =>
    if k' == k then (k', v) :: rest else (k', v') :: dictSet rest k v

theorem dictGet?_dictSet_self (d : List (String × PVal)) (k : String) (v : PVal) :
    dictGet? (dictSet d k v) k = some v := by
  induction d with
  | nil => simp [dictSet, dictGet?, List.find?]
  | cons p rest ih =>
    by_cases h : p.1 == k
    · simp [dictSet, dictGet?, List.find?, h]
    · simpa [dictSet, dictGet?, List.find?, h] using ih

theorem dictGet?_dictSet_ne (d : List (String × PVal)) (k k' : String) (v : PVal)
    (h : k' ≠ k) : dictGet? (dictSet d k v) k' = dictGet? d k' := by
  induction d with
  | nil =>
    simp only [dictSet, dictGet?, List.find?]
    have : (k == k') = false := by
      simp [beq_iff_eq]
      exact fun hh => h hh.symm
    simp [this]
  | cons p rest ih =>
    by_cases hp : p.1 == k
    · have hpk : p.1 = k := by simpa [beq_iff_eq] using hp
      have : (p.1 == k') = false := by
        simp [beq_iff_eq, hpk]
        exact fun hh => h hh.symm
      simp [dictSet, dictGet?, List.find?, hp, this]
    · by_cases hq : p.1 == k'
      · simp [dictSet, dictGet?, List.find?, hp, hq]
      · simpa [dictSet, dictGet?, List.find?, hp, hq] using ih

theorem dictSet_dictSet (d : List (String × PVal)) (k : String) (a b : PVal) :
    dictSet (dictSet d k a) k b = dictSet d k b := by
  induction d with
  | nil => simp [dictSet]
  | cons p rest ih =>
    by_cases h : p.1 == k
    · simp [dictSet, h]
    · simp [dictSet, h, ih]

/-- Python truth test used by `TrackScrobble.from_dict` (`data.get("scrobble")`
in boolean context): `None`, `0`, `0.0`, `""`, `[]` and the empty dict are
falsy. -/
def pyTruthy : PVal → Bool
  | PVal.none => false
  | PVal.str s => !s.isEmpty
  | PVal.int n => n != 0
  | PVal.float q => q != 0
  | PVal.bool b => b
  | PVal.pydict es => !es.isEmpty
  | PVal.pylist vs => !vs.isEmpty
  | PVal.obj _ _ => true

/-- `isinstance(v, dict)`. -/
def isPydict : PVal → Bool
  | PVal.pydict _ => true
  | _ => false

/-- `v is None`. -/
def isNoneV : PVal → Bool
  | PVal.none => true
  | _ => false

mutual
/-- Python `str(v)`.  The rendering of containers is an idealized stand-in
for CPython's `repr`-based text; no claim depends on that exact text (the
string fields of the payloads in the claims only ever hold scalars). -/
def pyStrFn : PVal → String
  | PVal.none => "None"
  | PVal.str s => s
  | PVal.int n => toString n
  | PVal.float q => toString q.num ++ "/" ++ toString q.den
  | PVal.bool b => if b then "True" else "False"
  | PVal.pydict es => "\x7b" ++ pyStrEntries es ++ "\x7d"
  | PVal.pylist vs => "[" ++ pyStrElems vs ++ "]"
  | PVal.obj c _ => c ++ "(...)"

def pyStrEntries : List (String × PVal) → String
  | [] => ""
  | (k, v) :: rest =>
    k ++ ": " ++ pyStrFn v ++ (if rest.isEmpty then "" else ", ") ++ pyStrEntries rest

def pyStrElems : List PVal → String
  | [] => ""
  | v :: rest => pyStrFn v ++ (if rest.isEmpty then "" else ", ") ++ pyStrElems rest
end

/-- Python `int(v)`.  Strings are parsed after stripping surrounding
whitespace (an idealized model of CPython's accepted digit forms); floats
truncate toward zero; non-numeric values raise `TypeError`. -/
def pyInt : PVal → Except PyErr PVal
  | PVal.int n => Except.ok (PVal.int n)
  | PVal.bool b => Except.ok (PVal.int (if b then 1 else 0))
  | PVal.float q => Except.ok (PVal.int (Int.tdiv q.num q.den))
  | PVal.str s =>
    match s.trim.toInt? with
    | some n => Except.ok (PVal.int n)
    | Option.none => Except.error (PyErr.valueError "invalid literal for int()")
  | _ => Except.error (PyErr.typeError "int() argument must be a string or a number")

/-- Decimal string to exact rational, the idealized model of `float(str)`. -/
def parseFloat? (s : String) : Option Rat :=
  match (s.trim.splitOn ".") with
  | [a] => (a.toInt?).map (fun n => (n : Rat))
  | [a, b] =>
    match a.toInt?, b.toNat? with
    | some n, some f =>
      some ((n : Rat) + (if n < 0 then (-1 : Rat) else 1) * (f : Rat) / ((10 : Rat) ^ b.length))
    | _, _ => Option.none
  | _ => Option.none

/-- Python `float(v)` under the exact-rational idealization of floats. -/
def pyFloat : PVal → Except PyErr PVal
  | PVal.float q => Except.ok (PVal.float q)
  | PVal.int n => Except.ok (PVal.float (n : Rat))
  | PVal.bool b => Except.ok (PVal.float (if b then 1 else 0))
  | PVal.str s =>
    match parseFloat? s with
    | some q => Except.ok (PVal.float q)
    | Option.none => Except.error (PyErr.valueError "could not convert string to float")
  | _ => Except.error (PyErr.typeError "float() argument must be a string or a number")

/-- The closed set of declared-type shapes that `BaseModel.from_dict`
dispatches on: `f.type == str or f.type == Optional[str]`, the same for
`int` and `float`, and everything else (nested entities, sequences, bools)
is left untouched. -/
inductive FType where
  | string
  | int
  | float
  | other
deriving DecidableEq, Repr

/-- One attrs field of a model class: its name, the declared-type shape,
and its constructor default (`Option.none` means the field is required). -/
structure FieldSpec where
  name : String
  ftype : FType
  default : Option PVal

/-- The per-field coercion applied by `BaseModel.from_dict` to a present,
non-`None` value. -/
def coerceField (t : FType) (v : PVal) : Except PyErr PVal :=
  match t with
  | FType.string => Except.ok (PVal.str (pyStrFn v))
  | FType.int => pyInt v
  | FType.float => pyFloat v
  | FType.other => Except.ok v

/-- The field loop of `BaseModel.from_dict` (src/pydrag/models/common.py,
lines 30-39): for each declared field in declaration order, skip it when the
key is absent or the value is `None`, otherwise coerce the value in place. -/
def baseFromDictLoop : List FieldSpec → List (String × PVal) → Except PyErr (List (String × PVal))
  | [], d => Except.ok d
  | f :: rest, d =>
    match dictGet? d f.name with
    | Option.none => baseFromDictLoop rest d
    | some PVal.none => baseFromDictLoop rest d
    | some v =>
      match coerceField f.ftype v with
      | Except.error e => Except.error e
      | Except.ok v' => baseFromDictLoop rest (dictSet d f.name v')

/-- The attrs-generated constructor applied to keyword arguments: each
declared field takes the supplied value or its default, a missing required
field is a `TypeError`.  The resulting instance lists its fields in class
declaration order, which is the order `fields(cls)` and `asdict` iterate. -/
def constructFields : List FieldSpec → List (String × PVal) → Except PyErr (List (String × PVal))
  | [], _ => Except.ok []
  | f :: rest, d =>
    match dictGet? d f.name, f.default with
    | some v, _ => (constructFields rest d).map (fun fs => (f.name, v) :: fs)
    | Option.none, some dv => (constructFields rest d).map (fun fs => (f.name, dv) :: fs)
    | Option.none, Option.none =>
      Except.error (PyErr.typeError ("missing required argument: " ++ f.name))

/-- `cls(**data)`: rejects unexpected keyword arguments, then builds the
instance from the schema. -/
def construct (cls : String) (schema : List FieldSpec) (d : List (String × PVal)) :
    Except PyErr PVal :=
  if d.all (fun p => schema.any (fun f => f.name == p.1)) then
    (constructFields schema d).map (PVal.obj cls)
  else Except.error (PyErr.typeError "unexpected keyword argument")

/-- Attribute lookup on a model instance. -/
def objGet (v : PVal) (k : String) : Option PVal :=
  match v with
  | PVal.obj _ fs => dictGet? fs k
  | _ => Option.none

mutual
/-- Value conversion inside `attr.asdict`: model instances become plain
dicts (their fields passing through the `to_dict` filter), containers are
converted elementwise, scalars are kept. -/
def asdictVal : PVal → PVal
  | PVal.none => PVal.none
  | PVal.str s => PVal.str s
  | PVal.int n => PVal.int n
  | PVal.float q => PVal.float q
  | PVal.bool b => PVal.bool b
  | PVal.pydict es => PVal.pydict (asdictEntries es)
  | PVal.pylist vs => PVal.pylist (asdictList vs)
  | PVal.obj _ fs => PVal.pydict (toDictFields fs)

/-- The field filter of `BaseModel.to_dict` (src/pydrag/models/common.py,
lines 16-26): drop a field when its value `is None` or is a raw dict
(`type(v) != dict` check), then convert what remains. -/
def toDictFields : List (String × PVal) → List (String × PVal)
  | [] => []
  | (k, v) :: rest =>
    if isNoneV v || isPydict v then toDictFields rest
    else (k, asdictVal v) :: toDictFields rest

def asdictEntries : List (String × PVal) → List (String × PVal)
  | [] => []
  | (k, v) :: rest => (k, asdictVal v) :: asdictEntries rest

def asdictList : List PVal → List PVal
  | [] => []
  | v :: rest => asdictVal v :: asdictList rest
end

/-- `BaseModel.to_dict` of a model instance. -/
def objToDict (v : PVal) : List (String × PVal) :=
  match v with
  | PVal.obj _ fs => toDictFields fs
  | _ => []

/-- Field schema of `Corrected` (src/pydrag/lastfm/models/track.py, lines
19-22): three optional scalar fields. -/
def correctedSchema : List FieldSpec :=
  [⟨"text", FType.string, some PVal.none⟩,
   ⟨"code", FType.string, some PVal.none⟩,
   ⟨"corrected", FType.int, some PVal.none⟩]

/-- `Corrected.from_dict` is the inherited `BaseModel.from_dict`. -/
def correctedFromDict (d : List (String × PVal)) : Except PyErr PVal := do
  let d' ← baseFromDictLoop correctedSchema d
  construct "Corrected" correctedSchema d'

/-- Field schema of `Link` (src/pydrag/models/common.py, lines 142-145):
three required string fields. -/
def linkSchema : List FieldSpec :=
  [⟨"href", FType.string, Option.none⟩,
   ⟨"rel", FType.string, Option.none⟩,
   ⟨"text", FType.string, Option.none⟩]

/-- `Link.from_dict` is the inherited `BaseModel.from_dict`; called on a
non-dict element every path ends in a `TypeError` (iterating field names
over the value or unpacking it with `**` both fail). -/
def linkFromDict : PVal → Except PyErr PVal
  | PVal.pydict d => do
    let d' ← baseFromDictLoop linkSchema d
    construct "Link" linkSchema d'
  | _ => Except.error (PyErr.typeError "argument is not a mapping")

/-- Field schema of `Wiki` (src/pydrag/models/common.py, lines 149-153). -/
def wikiSchema : List FieldSpec :=
  [⟨"content", FType.string, some PVal.none⟩,
   ⟨"summary", FType.string, some PVal.none⟩,
   ⟨"published", FType.string, some PVal.none⟩,
   ⟨"links", FType.other, some PVal.none⟩]

/-- The normalization prefix of `Wiki.from_dict` (src/pydrag/models/common.py,
lines 155-162): when `"links" in data`, read `data["links"]["link"]` (a
missing inner key raises `KeyError`, uncaught), wrap a single dict into a
one-element list, then map `Link.from_dict` over the list and overwrite
`data["links"]` with the result.  The in-place wrap of the inner dict is
immediately overwritten by that assignment, so it is folded into `lv'`.
A non-list, non-dict inner value fails inside `list(map(...))`: a nonempty
string iterates into characters that `Link.from_dict` rejects, anything
else is not iterable; the empty string gives an empty list. -/
def wikiNormalize (data : List (String × PVal)) : Except PyErr (List (String × PVal)) :=
  match dictGet? data "links" with
  | Option.none => Except.ok data
  | some (PVal.pydict inner) =>
    match dictGet? inner "link" with
    | Option.none => Except.error (PyErr.keyError "link")
    | some lv =>
      let lv' := if isPydict lv then PVal.pylist [lv] else lv
      match lv' with
      | PVal.pylist items =>
        (items.mapM linkFromDict).map (fun links => dictSet data "links" (PVal.pylist links))
      | PVal.str s =>
        if s.isEmpty then Except.ok (dictSet data "links" (PVal.pylist []))
        else Except.error (PyErr.typeError "argument is not a mapping")
      | _ => Except.error (PyErr.typeError "argument of type is not iterable")
  | some (PVal.str _) => Except.error (PyErr.typeError "string indices must be integers")
  | some (PVal.pylist _) => Except.error (PyErr.typeError "list indices must be integers")
  | some _ => Except.error (PyErr.typeError "object is not subscriptable")

/-- `Wiki.from_dict`. -/
def wikiFromDict (d : List (String × PVal)) : Except PyErr PVal := do
  let d1 ← wikiNormalize d
  let d2 ← baseFromDictLoop wikiSchema d1
  construct "Wiki" wikiSchema d2

/-- Field schema of `Track` (src/pydrag/lastfm/models/track.py, lines
69-85), in class declaration order.  `name` and `artist` are required;
`duration` is declared `Optional[str]` and `loved` `Optional[int]`. -/
def trackSchema : List FieldSpec :=
  [⟨"name", FType.string, Option.none⟩,
   ⟨"artist", FType.other, Option.none⟩,
   ⟨"url", FType.string, some PVal.none⟩,
   ⟨"mbid", FType.string, some PVal.none⟩,
   ⟨"image", FType.other, some PVal.none⟩,
   ⟨"playcount", FType.int, some PVal.none⟩,
   ⟨"listeners", FType.int, some PVal.none⟩,
   ⟨"streamable", FType.string, some PVal.none⟩,
   ⟨"duration", FType.string, some PVal.none⟩,
   ⟨"match", FType.float, some PVal.none⟩,
   ⟨"wiki", FType.other, some PVal.none⟩,
   ⟨"album", FType.other, some PVal.none⟩,
   ⟨"top_tags", FType.other, some PVal.none⟩,
   ⟨"attr", FType.other, some PVal.none⟩,
   ⟨"date", FType.other, some PVal.none⟩,
   ⟨"loved", FType.int, some PVal.none⟩]

/-- Step 1 of `Track.from_dict` (src/pydrag/lastfm/models/track.py, lines
99-102): `try: data["top_tags"] = data["top_tags"]["tag"] except KeyError:
pass`.  Only `KeyError` is caught; a present non-dict wrapper raises
`TypeError`. -/
def trackStep1 (d : List (String × PVal)) : Except PyErr (List (String × PVal)) :=
  match dictGet? d "top_tags" with
  | Option.none => Except.ok d
  | some (PVal.pydict inner) =>
    match dictGet? inner "tag" with
    | Option.none => Except.ok d
    | some t => Except.ok (dictSet d "top_tags" t)
  | some (PVal.str _) => Except.error (PyErr.typeError "string indices must be integers")
  | some (PVal.pylist _) => Except.error (PyErr.typeError "list indices must be integers")
  | some _ => Except.error (PyErr.typeError "object is not subscriptable")

/-- Step 2 of `Track.from_dict` (lines 104-108): promote a bare-string
artist nested inside the album composite, again catching only `KeyError`. -/
def trackStep2 (d : List (String × PVal)) : Except PyErr (List (String × PVal)) :=
  match dictGet? d "album" with
  | Option.none => Except.ok d
  | some (PVal.pydict inner) =>
    match dictGet? inner "artist" with
    | Option.none => Except.ok d
    | some (PVal.str s) =>
      Except.ok (dictSet d "album"
        (PVal.pydict (dictSet inner "artist" (PVal.pydict [("name", PVal.str s)]))))
    | some _ => Except.ok d
  | some (PVal.str _) => Except.error (PyErr.typeError "string indices must be integers")
  | some (PVal.pylist _) => Except.error (PyErr.typeError "list indices must be integers")
  | some _ => Except.error (PyErr.typeError "object is not subscriptable")

/-- Step 3 of `Track.from_dict` (lines 110-111): promote a bare-string
artist to a name-only stub dict. -/
def trackStep3 (d : List (String × PVal)) : List (String × PVal) :=
  match dictGet? d "artist" with
  | some (PVal.str s) => dictSet d "artist" (PVal.pydict [("name", PVal.str s)])
  | _ => d

/-- The whole normalization prefix of `Track.from_dict`. -/
def trackNormalize (d : List (String × PVal)) : Except PyErr (List (String × PVal)) := do
  let d1 ← trackStep1 d
  let d2 ← trackStep2 d1
  Except.ok (trackStep3 d2)

/-- `Track.from_dict` up to and including the `BaseModel.from_dict` field
loop: this is the final state of the caller's dictionary, which the source
mutates in place. -/
def trackFromDictData (d : List (String × PVal)) : Except PyErr (List (String × PVal)) := do
  let d1 ← trackNormalize d
  baseFromDictLoop trackSchema d1

/-- `Track.from_dict` (src/pydrag/lastfm/models/track.py, lines 87-113). -/
def trackFromDict (d : List (String × PVal)) : Except PyErr PVal := do
  let d1 ← trackFromDictData d
  construct "Track" trackSchema d1

/-- Field schema of `ScrobbleTrack` (src/pydrag/models/common.py, lines
165-177): `artist` and `track` required, `timestamp` defaulting to the
current clock (`now`, passed in as a parameter), the rest optional.
`chosen_by_user` is `Optional[bool]`, which the `from_dict` type dispatch
leaves untouched. -/
def scrobbleTrackSchema (now : Int) : List FieldSpec :=
  [⟨"artist", FType.string, Option.none⟩,
   ⟨"track", FType.string, Option.none⟩,
   ⟨"timestamp", FType.int, some (PVal.int now)⟩,
   ⟨"track_number", FType.string, some PVal.none⟩,
   ⟨"album", FType.string, some PVal.none⟩,
   ⟨"album_artist", FType.string, some PVal.none⟩,
   ⟨"duration", FType.int, some PVal.none⟩,
   ⟨"mbid", FType.string, some PVal.none⟩,
   ⟨"context", FType.string, some PVal.none⟩,
   ⟨"stream_id", FType.string, some PVal.none⟩,
   ⟨"chosen_by_user", FType.other, some PVal.none⟩]

/-- One entry of the comprehension in `ScrobbleTrack.from_dict`
(src/pydrag/models/common.py, lines 184-191): the new value for key `k` is
`data[k]["text"]` when `data.get(k, {}).get("text", "") != ""`, else `None`.
All reads see the original mapping; `.get` on a present non-dict value
raises `AttributeError`. -/
def textUnwrap (d : List (String × PVal)) (k : String) : Except PyErr PVal :=
  match dictGet? d k with
  | Option.none => Except.ok PVal.none
  | some (PVal.pydict inner) =>
    match dictGet? inner "text" with
    | Option.none => Except.ok PVal.none
    | some (PVal.str s) =>
      if s.isEmpty then Except.ok PVal.none else Except.ok (PVal.str s)
    | some t => Except.ok t
  | some _ => Except.error (PyErr.attributeError "object has no attribute get")

/-- The `data.update({...})` prefix of `ScrobbleTrack.from_dict`: the four
text-wrapped outbound fields are rewritten in the listed key order. -/
def scrobbleTrackNormalize (d : List (String × PVal)) :
    Except PyErr (List (String × PVal)) := do
  let va ← textUnwrap d "album"
  let vr ← textUnwrap d "artist"
  let vt ← textUnwrap d "track"
  let vaa ← textUnwrap d "album_artist"
  Except.ok (dictSet (dictSet (dictSet (dictSet d "album" va) "artist" vr) "track" vt)
    "album_artist" vaa)

/-- `ScrobbleTrack.from_dict` (src/pydrag/models/common.py, lines 182-192). -/
def scrobbleTrackFromDict (now : Int) (d : List (String × PVal)) : Except PyErr PVal := do
  let d1 ← scrobbleTrackNormalize d
  let d2 ← baseFromDictLoop (scrobbleTrackSchema now) d1
  construct "ScrobbleTrack" (scrobbleTrackSchema now) d2

/-- Field schema of `TrackScrobble` (src/pydrag/lastfm/models/track.py,
lines 37-39): both fields required, neither scalar-typed. -/
def trackScrobbleSchema : List FieldSpec :=
  [⟨"scrobble", FType.other, Option.none⟩,
   ⟨"attr", FType.other, Option.none⟩]

/-- `TrackScrobble.from_dict` (src/pydrag/lastfm/models/track.py, lines
41-46) on a dict payload: when `data.get("scrobble")` is truthy and a dict,
wrap it in a one-element list, then run the inherited `from_dict`. -/
def trackScrobbleFromDict (data : List (String × PVal)) : Except PyErr PVal := do
  let data' :=
    match dictGet? data "scrobble" with
    | some (PVal.pydict inner) =>
      if inner.isEmpty then data
      else dictSet data "scrobble" (PVal.pylist [PVal.pydict inner])
    | _ => data
  let d2 ← baseFromDictLoop trackScrobbleSchema data'
  construct "TrackScrobble" trackScrobbleSchema d2

/-- Index list of `range(0, stop, step)` for positive `step`, computed the
way CPython sizes a range object: `ceil(stop / step)` elements `i * step`. -/
def rangeIdx (stop step : Nat) : List Nat :=
  (List.range ((stop + step - 1) / step)).map (fun i => i * step)

/-- `range(0, stop, step)` as used by `divide_chunks`, where `stop` is
`len(l) ≥ 0`: a zero step raises `ValueError`, a negative step gives the
empty range (the start 0 is not above the stop), and a positive step gives
the multiples of `step` below `stop`. -/
def pyRange0 (stop : Nat) (step : Int) : Except PyErr (List Nat) :=
  if step = 0 then Except.error (PyErr.valueError "range() arg 3 must not be zero")
  else if step < 0 then Except.ok []
  else Except.ok (rangeIdx stop step.toNat)

/-- The slice `l[i : i + n]` for a nonnegative start index `i`; only
evaluated with `n ≥ 1` (the index list is empty otherwise). -/
def pySliceTake {α : Type} (l : List α) (i : Nat) (n : Int) : List α :=
  (l.drop i).take n.toNat

/-- `divide_chunks` (src/pydrag/lastfm/models/track.py, lines 369-371):
`for i in range(0, len(l), n): yield l[i : i + n]`, materialized by the
`list(...)` call at line 374. -/
def divide_chunks {α : Type} (l : List α) (n : Int) : Except PyErr (List (List α)) :=
  (pyRange0 l.length n).map (fun idxs => idxs.map (fun i => pySliceTake l i n))

/-- Modelled from the spec: the aggregate attributes record of a batch
scrobble result, `pydrag.lastfm.models.common.Attributes`, whose module is
not part of the sampled source.  The spec describes it as the aggregate
`{accepted count, ignored count}` of a `TrackScrobble`. -/
structure ScrobbleAttributes where
  accepted : Int
  ignored : Int
deriving DecidableEq, Repr

/-- A batch scrobble result: the ordered per-track outcome list plus the
aggregate counters.  The outcome record type (`TrackUpdateNowPlaying`) is
abstracted as `β`; the submission call (`Track.scrobble`, whose transport
lives outside the sampled source) is abstracted as an oracle from a chunk
to such a result. -/
structure TrackScrobbleM (β : Type) where
  scrobble : List β
  attr : ScrobbleAttributes
deriving DecidableEq, Repr

/-- The accumulator loop of `Track.scrobble_tracks` (src/pydrag/lastfm/
models/track.py, lines 373-384): the first chunk's result becomes the
accumulator (its transport response field, not modelled, is cleared);
for each later chunk whose result has a truthy `scrobble` list the
accepted/ignored counters are summed in, and line 383 extends the
accumulator's own outcome list with itself
(`status.scrobble.extend(status.scrobble)`). -/
def scrobbleLoop {β : Type} :
    Option (TrackScrobbleM β) → List (TrackScrobbleM β) → Option (TrackScrobbleM β)
  | st, [] => st
  | Option.none, r :: rest => scrobbleLoop (some r) rest
  | some s, r :: rest =>
    if r.scrobble.isEmpty then scrobbleLoop (some s) rest
    else
      scrobbleLoop
        (some
          { scrobble := s.scrobble ++ s.scrobble,
            attr :=
              { accepted := s.attr.accepted + r.attr.accepted,
                ignored := s.attr.ignored + r.attr.ignored } })
        rest

/-- `Track.scrobble_tracks` (src/pydrag/lastfm/models/track.py, lines
354-384): clamp the batch size to at most 50, split the tracks into chunks,
submit every chunk in order through the oracle, and aggregate. -/
def scrobbleTracksModel {α β : Type} (submit : List α → TrackScrobbleM β)
    (tracks : List α) (batchSize : Int) : Except PyErr (Option (TrackScrobbleM β)) :=
  (divide_chunks tracks (min batchSize 50)).map
    (fun batches => scrobbleLoop Option.none (batches.map submit))

theorem pyStrFn_str (s : String) : pyStrFn (PVal.str s) = s := rfl

/-- A key absent from the mapping stays absent through the
`BaseModel.from_dict` field loop: the loop only writes keys it found. -/
theorem baseFromDictLoop_absent (schema : List FieldSpec) (k : String) :
    ∀ d d', baseFromDictLoop schema d = Except.ok d' →
      dictGet? d k = Option.none → dictGet? d' k = Option.none := by
  induction schema with
  | nil =>
    intro d d' h hk
    simp only [baseFromDictLoop] at h
    cases h
    exact hk
  | cons f rest ih =>
    intro d d' h hk
    simp only [baseFromDictLoop] at h
    split at h
    · exact ih d d' h hk
    · exact ih d d' h hk
    · rename_i v hv hne
      split at h
      · cases h
      · rename_i v' hc
        have hfk : f.name ≠ k := by
          intro he
          rw [he, hk] at hne
          cases hne
        refine ih _ d' h ?_
        rw [dictGet?_dictSet_ne _ _ _ _ (fun he => hfk he.symm)]
        exact hk

theorem dictGet?_cons (k0 : String) (v0 : PVal) (rest : List (String × PVal)) (k : String) :
    dictGet? ((k0, v0) :: rest) k = if k0 == k then some v0 else dictGet? rest k := by
  by_cases h : k0 == k <;> simp [dictGet?, List.find?, h]

/-- A key mapped to `None` keeps that value through the field loop: the
`data[f.name] is None` test skips it and other keys write elsewhere. -/
theorem baseFromDictLoop_none_value (schema : List FieldSpec) (k : String) :
    ∀ d d', baseFromDictLoop schema d = Except.ok d' →
      dictGet? d k = some PVal.none → dictGet? d' k = some PVal.none := by
  induction schema with
  | nil =>
    intro d d' h hk
    simp only [baseFromDictLoop] at h
    cases h
    exact hk
  | cons f rest ih =>
    intro d d' h hk
    simp only [baseFromDictLoop] at h
    split at h
    · exact ih d d' h hk
    · exact ih d d' h hk
    · rename_i v hv hne
      split at h
      · cases h
      · rename_i v' hc
        have hfk : f.name ≠ k := by
          intro he
          rw [he, hk] at hne
          exact hv (by cases hne; rfl)
        refine ih _ d' h ?_
        rw [dictGet?_dictSet_ne _ _ _ _ (fun he => hfk he.symm)]
        exact hk

/-- For a key all of whose schema entries are non-scalar (`other`), the
field loop leaves the looked-up value unchanged. -/
theorem baseFromDictLoop_other (schema : List FieldSpec) (k : String) :
    ∀ d d', (∀ f ∈ schema, f.name = k → f.ftype = FType.other) →
      baseFromDictLoop schema d = Except.ok d' →
      dictGet? d' k = dictGet? d k := by
  induction schema with
  | nil =>
    intro d d' _ h
    simp only [baseFromDictLoop] at h
    cases h
    rfl
  | cons f rest ih =>
    intro d d' hft h
    simp only [baseFromDictLoop] at h
    split at h
    · exact ih d d' (fun g hg => hft g (List.mem_cons_of_mem f hg)) h
    · exact ih d d' (fun g hg => hft g (List.mem_cons_of_mem f hg)) h
    · rename_i v hv hne
      split at h
      · cases h
      · rename_i v' hc
        by_cases hfk : f.name = k
        · have hty : f.ftype = FType.other := hft f (List.mem_cons_self f rest) hfk
          rw [hty] at hc
          simp only [coerceField] at hc
          cases hc
          have h2 := ih _ d' (fun g hg => hft g (List.mem_cons_of_mem f hg)) h
          rw [hfk] at hne
          rw [h2, hfk, dictGet?_dictSet_self, hne]
        · have := ih _ d' (fun g hg => hft g (List.mem_cons_of_mem f hg)) h
          rw [this, dictGet?_dictSet_ne _ _ _ _ (fun he => hfk he.symm)]

/-- For a key all of whose schema entries are string-typed, a string value
is stable through the field loop (`str` applied to a string is itself). -/
theorem baseFromDictLoop_string (schema : List FieldSpec) (k : String) (s : String) :
    ∀ d d', (∀ f ∈ schema, f.name = k → f.ftype = FType.string) →
      baseFromDictLoop schema d = Except.ok d' →
      dictGet? d k = some (PVal.str s) → dictGet? d' k = some (PVal.str s) := by
  induction schema with
  | nil =>
    intro d d' _ h hk
    simp only [baseFromDictLoop] at h
    cases h
    exact hk
  | cons f rest ih =>
    intro d d' hft h hk
    simp only [baseFromDictLoop] at h
    split at h
    · exact ih d d' (fun g hg => hft g (List.mem_cons_of_mem f hg)) h hk
    · exact ih d d' (fun g hg => hft g (List.mem_cons_of_mem f hg)) h hk
    · rename_i v hv hne
      split at h
      · cases h
      · rename_i v' hc
        by_cases hfk : f.name = k
        · have hv' : v = PVal.str s := by
            rw [hfk, hk] at hne
            cases hne
            rfl
          have hty : f.ftype = FType.string := hft f (List.mem_cons_self f rest) hfk
          rw [hty, hv'] at hc
          simp only [coerceField, pyStrFn] at hc
          cases hc
          refine ih _ d' (fun g hg => hft g (List.mem_cons_of_mem f hg)) h ?_
          rw [hfk, dictGet?_dictSet_self]
        · refine ih _ d' (fun g hg => hft g (List.mem_cons_of_mem f hg)) h ?_
          rw [dictGet?_dictSet_ne _ _ _ _ (fun he => hfk he.symm)]
          exact hk

/-- A key present in the keyword arguments is stored as given by the
attrs constructor. -/
theorem constructFields_get (schema : List FieldSpec) (k : String) (v : PVal) :
    ∀ d fs, constructFields schema d = Except.ok fs →
      dictGet? d k = some v → k ∈ schema.map FieldSpec.name →
      dictGet? fs k = some v := by
  induction schema with
  | nil =>
    intro d fs _ _ hmem
    simp at hmem
  | cons f rest ih =>
    intro d fs h hd hmem
    simp only [constructFields] at h
    split at h
    · rename_i w hw
      cases hrest : constructFields rest d with
      | error e => rw [hrest] at h; cases h
      | ok fs0 =>
        rw [hrest] at h
        simp only [Except.map] at h
        cases h
        by_cases hfk : f.name = k
        · rw [dictGet?_cons]
          have : w = v := by
            rw [hfk, hd] at hw
            cases hw
            rfl
          simp [hfk, this]
        · rw [dictGet?_cons]
          simp only [beq_iff_eq, hfk, if_false]
          refine ih d fs0 hrest hd ?_
          simp only [List.map_cons, List.mem_cons] at hmem
          exact hmem.resolve_left (fun he => hfk he.symm)
    · rename_i dv hw hdv
      cases hrest : constructFields rest d with
      | error e => rw [hrest] at h; cases h
      | ok fs0 =>
        rw [hrest] at h
        simp only [Except.map] at h
        cases h
        by_cases hfk : f.name = k
        · rw [hfk, hd] at hw
          cases hw
        · rw [dictGet?_cons]
          simp only [beq_iff_eq, hfk, if_false]
          refine ih d fs0 hrest hd ?_
          simp only [List.map_cons, List.mem_cons] at hmem
          exact hmem.resolve_left (fun he => hfk he.symm)
    · cases h

/-- A key absent from the keyword arguments whose schema entries all carry
the default `dv` is stored as `dv` by the attrs constructor. -/
theorem constructFields_default (schema : List FieldSpec) (k : String) (dv : PVal) :
    ∀ d fs, constructFields schema d = Except.ok fs →
      dictGet? d k = Option.none →
      (∀ f ∈ schema, f.name = k → f.default = some dv) →
      k ∈ schema.map FieldSpec.name →
      dictGet? fs k = some dv := by
  induction schema with
  | nil =>
    intro d fs _ _ _ hmem
    simp at hmem
  | cons f rest ih =>
    intro d fs h hd hdef hmem
    simp only [constructFields] at h
    split at h
    · rename_i w hw
      cases hrest : constructFields rest d with
      | error e => rw [hrest] at h; cases h
      | ok fs0 =>
        rw [hrest] at h
        simp only [Except.map] at h
        cases h
        by_cases hfk : f.name = k
        · rw [hfk, hd] at hw
          cases hw
        · rw [dictGet?_cons]
          simp only [beq_iff_eq, hfk, if_false]
          refine ih d fs0 hrest hd (fun g hg => hdef g (List.mem_cons_of_mem f hg)) ?_
          simp only [List.map_cons, List.mem_cons] at hmem
          exact hmem.resolve_left (fun he => hfk he.symm)
    · rename_i dv' hw hdv
      cases hrest : constructFields rest d with
      | error e => rw [hrest] at h; cases h
      | ok fs0 =>
        rw [hrest] at h
        simp only [Except.map] at h
        cases h
        by_cases hfk : f.name = k
        · rw [dictGet?_cons]
          have : dv' = dv := by
            have := hdef f (List.mem_cons_self f rest) hfk
            rw [this] at hdv
            cases hdv
            rfl
          simp [hfk, this]
        · rw [dictGet?_cons]
          simp only [beq_iff_eq, hfk, if_false]
          refine ih d fs0 hrest hd (fun g hg => hdef g (List.mem_cons_of_mem f hg)) ?_
          simp only [List.map_cons, List.mem_cons] at hmem
          exact hmem.resolve_left (fun he => hfk he.symm)
    · cases h

/-- Every field value of a constructed instance came either from the
keyword arguments or from the field's declared default. -/
theorem constructFields_source (schema : List FieldSpec) (k : String) (v : PVal) :
    ∀ d fs, constructFields schema d = Except.ok fs →
      dictGet? fs k = some v →
      dictGet? d k = some v ∨
        (dictGet? d k = Option.none ∧ ∃ f, f ∈ schema ∧ f.name = k ∧ f.default = some v) := by
  induction schema with
  | nil =>
    intro d fs h hk
    simp only [constructFields] at h
    cases h
    simp [dictGet?, List.find?] at hk
  | cons f rest ih =>
    intro d fs h hk
    simp only [constructFields] at h
    split at h
    · rename_i w hw
      cases hrest : constructFields rest d with
      | error e => rw [hrest] at h; cases h
      | ok fs0 =>
        rw [hrest] at h
        simp only [Except.map] at h
        cases h
        rw [dictGet?_cons] at hk
        by_cases hfk : f.name = k
        · simp only [beq_iff_eq, hfk, if_true] at hk
          cases hk
          left
          rw [← hfk]
          exact hw
        · simp only [beq_iff_eq, hfk, if_false] at hk
          rcases ih d fs0 hrest hk with hcase | ⟨hnone, g, hg, hgk, hgd⟩
          · exact Or.inl hcase
          · exact Or.inr ⟨hnone, g, List.mem_cons_of_mem f hg, hgk, hgd⟩
    · rename_i dv hw hdv
      cases hrest : constructFields rest d with
      | error e => rw [hrest] at h; cases h
      | ok fs0 =>
        rw [hrest] at h
        simp only [Except.map] at h
        cases h
        rw [dictGet?_cons] at hk
        by_cases hfk : f.name = k
        · simp only [beq_iff_eq, hfk, if_true] at hk
          cases hk
          right
          refine ⟨by rw [← hfk]; exact hw, f, List.mem_cons_self f rest, hfk, hdv⟩
        · simp only [beq_iff_eq, hfk, if_false] at hk
          rcases ih d fs0 hrest hk with hcase | ⟨hnone, g, hg, hgk, hgd⟩
          · exact Or.inl hcase
          · exact Or.inr ⟨hnone, g, List.mem_cons_of_mem f hg, hgk, hgd⟩
    · cases h

/-- The chunks produced by the range/slice loop of `divide_chunks`
concatenate back to the original list (positive step). -/
theorem rangeIdx_flatten {α : Type} (n : Nat) (hn : 1 ≤ n) :
    ∀ (len : Nat) (l : List α), l.length = len →
      ((rangeIdx len n).map (fun i => (l.drop i).take n)).flatten = l := by
  intro len
  induction len using Nat.strong_induction_on with
  | _ len ih =>
    intro l hl
    cases l with
    | nil =>
      have h0 : len = 0 := by simpa using hl.symm
      subst h0
      have hz : (0 + n - 1) / n = 0 := Nat.div_eq_of_lt (by omega)
      simp [rangeIdx, hz]
    | cons a t =>
      have hlen : len = t.length + 1 := by simpa using hl.symm
      have hcount : (len + n - 1) / n = ((len - n) + n - 1) / n + 1 := by
        rcases le_or_lt len n with hle | hlt
        · have h1 : len - n = 0 := Nat.sub_eq_zero_of_le hle
          rw [h1]
          have h2 : (0 + n - 1) / n = 0 := Nat.div_eq_of_lt (by omega)
          rw [h2]
          exact Nat.div_eq_of_lt_le (by omega) (by omega)
        · have h3 : len + n - 1 = ((len - n) + n - 1) + n := by omega
          rw [h3, Nat.add_div_right _ (by omega : 0 < n)]
      have hdroplen : ((a :: t).drop n).length = len - n := by
        rw [List.length_drop]
        simp [hlen]
      have hih := ih (len - n) (by omega) ((a :: t).drop n) hdroplen
      rw [rangeIdx, List.map_map] at hih
      have hmap : (List.range (((len - n) + n - 1) / n)).map
            ((fun i => (((a :: t).drop i).take n)) ∘ (fun i => i * n) ∘ Nat.succ) =
          (List.range (((len - n) + n - 1) / n)).map
            ((fun i => ((((a :: t).drop n).drop i).take n)) ∘ (fun i => i * n)) := by
        refine List.map_congr_left (fun i _ => ?_)
        simp only [Function.comp]
        rw [List.drop_drop]
        have : Nat.succ i * n = n + i * n := by
          rw [Nat.succ_mul]
          omega
        rw [this]
      rw [rangeIdx, hcount, List.range_succ_eq_map, List.map_cons, List.map_map,
        List.map_cons, List.flatten_cons, List.map_map, hmap, hih]
      simp

/-- For a positive batch size `divide_chunks` succeeds with the range/slice
chunks. -/
theorem divide_chunks_pos {α : Type} (l : List α) (n : Int) (hn : 1 ≤ n) :
    divide_chunks l n =
      Except.ok ((rangeIdx l.length n.toNat).map (fun i => (l.drop i).take n.toNat)) := by
  have h0 : ¬n = 0 := by omega
  have h1 : ¬n < 0 := by omega
  simp [divide_chunks, pyRange0, h0, h1, pySliceTake, Except.map, List.map_map]

/-- Every chunk yielded by a positive-step `divide_chunks` has at most `n`
elements. -/
theorem divide_chunks_length_le {α : Type} (l : List α) (n : Int) (hn : 1 ≤ n)
    (cs : List (List α)) (h : divide_chunks l n = Except.ok cs) :
    ∀ c ∈ cs, c.length ≤ n.toNat := by
  rw [divide_chunks_pos l n hn] at h
  cases h
  intro c hc
  rcases List.mem_map.mp hc with ⟨i, _, hci⟩
  rw [← hci]
  exact List.length_take_le _ _

/-- Positive-step `divide_chunks` splits the list into chunks that
concatenate back to it. -/
theorem divide_chunks_flatten {α : Type} (l : List α) (n : Int) (hn : 1 ≤ n)
    (cs : List (List α)) (h : divide_chunks l n = Except.ok cs) :
    cs.flatten = l := by
  rw [divide_chunks_pos l n hn] at h
  cases h
  exact rangeIdx_flatten n.toNat (by omega) l.length l rfl

/-- Running the accumulator loop from an existing accumulator over results
that all have nonempty outcome lists sums the accepted/ignored counters. -/
theorem scrobbleLoop_attr_sum {β : Type} :
    ∀ (rs : List (TrackScrobbleM β)) (s : TrackScrobbleM β),
      (∀ r ∈ rs, r.scrobble.isEmpty = false) →
      ∃ s', scrobbleLoop (some s) rs = some s' ∧
        s'.attr.accepted = s.attr.accepted + (rs.map (fun r => r.attr.accepted)).sum ∧
        s'.attr.ignored = s.attr.ignored + (rs.map (fun r => r.attr.ignored)).sum := by
  intro rs
  induction rs with
  | nil =>
    intro s _
    exact ⟨s, rfl, by simp, by simp⟩
  | cons r rest ih =>
    intro s hne
    have hr : r.scrobble.isEmpty = false := hne r (List.mem_cons_self r rest)
    have step :
        scrobbleLoop (some s) (r :: rest) =
          scrobbleLoop
            (some
              { scrobble := s.scrobble ++ s.scrobble,
                attr :=
                  { accepted := s.attr.accepted + r.attr.accepted,
                    ignored := s.attr.ignored + r.attr.ignored } })
            rest := by
      simp [scrobbleLoop, hr]
    rcases ih { scrobble := s.scrobble ++ s.scrobble,
                attr :=
                  { accepted := s.attr.accepted + r.attr.accepted,
                    ignored := s.attr.ignored + r.attr.ignored } }
        (fun g hg => hne g (List.mem_cons_of_mem r hg)) with ⟨s', hs', hacc, hign⟩
    refine ⟨s', by rw [step, hs'], ?_, ?_⟩
    · rw [hacc]
      simp
      ring
    · rw [hign]
      simp
      ring

/-- Submission oracle used for concrete batch-scrobble inputs: each chunk's
result reports one outcome per submitted track (the track ids themselves)
with every track accepted. -/
def submitSelfExtend (b : List Nat) : TrackScrobbleM Nat :=
  { scrobble := b, attr := { accepted := (b.length : Int), ignored := 0 } }

/-- Claim C1: at the failing input of three tracks in two chunks the
cumulative outcome list is the first chunk's outcomes duplicated
(`status.scrobble.extend(status.scrobble)` at line 383 extends the
accumulator with itself), not the first chunk's outcomes followed by the
second chunk's as the claim states. -/
theorem scrobble_list_self_extend_bug :
    scrobbleTracksModel submitSelfExtend [10, 20, 30] 2 =
        Except.ok (some { scrobble := [10, 20, 10, 20],
                          attr := { accepted := 3, ignored := 0 } }) ∧
      ([10, 20, 10, 20] : List Nat) ≠ [10, 20, 30] :=
  ⟨rfl, by decide⟩

/-- Claim C2: with a positive requested batch size, `scrobble_tracks`
splits the sequence into contiguous order-preserving chunks of at most
`min(batch_size, 50)` elements (so never more than 50); a 23-element
sequence with batch size 10 yields chunk lengths 10, 10, 3 in order, and a
requested batch size of 75 behaves exactly as 50. -/
theorem scrobble_chunking_spec :
    (∀ (α : Type) (l : List α) (n : Int) (cs : List (List α)), 1 ≤ n →
        divide_chunks l (min n 50) = Except.ok cs →
        cs.flatten = l ∧ (∀ c ∈ cs, c.length ≤ (min n 50).toNat) ∧ min n 50 ≤ 50) ∧
    ((divide_chunks (List.range 23) 10).map (fun cs => cs.map List.length) =
      Except.ok [10, 10, 3]) ∧
    (∀ (α β : Type) (submit : List α → TrackScrobbleM β) (tracks : List α),
        scrobbleTracksModel submit tracks 75 = scrobbleTracksModel submit tracks 50) := by
  refine ⟨?_, rfl, ?_⟩
  · intro α l n cs hn hdiv
    have hmin : 1 ≤ min n 50 := by omega
    exact ⟨divide_chunks_flatten l _ hmin cs hdiv,
      divide_chunks_length_le l _ hmin cs hdiv, by omega⟩
  · intro α β submit tracks
    have h : (min (75 : Int) 50) = min (50 : Int) 50 := by norm_num
    simp only [scrobbleTracksModel, h]

/-- Witness for C2 at the concrete input of the claim: 23 elements with
batch size 10 chunk into the three slices, which flatten back and obey the
length bound. -/
theorem scrobble_chunking_spec_witness :
    divide_chunks (List.range 23) (min (10 : Int) 50) =
        Except.ok [[0, 1, 2, 3, 4, 5, 6, 7, 8, 9],
          [10, 11, 12, 13, 14, 15, 16, 17, 18, 19], [20, 21, 22]] ∧
      ([[0, 1, 2, 3, 4, 5, 6, 7, 8, 9],
          [10, 11, 12, 13, 14, 15, 16, 17, 18, 19], [20, 21, 22]] : List (List Nat)).flatten =
        List.range 23 :=
  ⟨rfl,
    (scrobble_chunking_spec.1 Nat (List.range 23) 10
      [[0, 1, 2, 3, 4, 5, 6, 7, 8, 9],
        [10, 11, 12, 13, 14, 15, 16, 17, 18, 19], [20, 21, 22]]
      (by norm_num) rfl).1⟩

/-- Claim C3: when every chunk after the first produces a result with a
nonempty per-track outcome list, the cumulative accepted/ignored counters
are the first chunk's counters plus the sum of the later chunks' counters;
in particular two chunks reporting accepted=8, ignored=2 and accepted=5,
ignored=0 aggregate to accepted=13, ignored=2. -/
theorem scrobble_counter_aggregation :
    (∀ (α β : Type) (submit : List α → TrackScrobbleM β) (tracks : List α) (n : Int)
        (b1 : List α) (brest : List (List α)),
        divide_chunks tracks (min n 50) = Except.ok (b1 :: brest) →
        (∀ b ∈ brest, ((submit b).scrobble).isEmpty = false) →
        (scrobbleTracksModel submit tracks n).map
            (Option.map (fun s => (s.attr.accepted, s.attr.ignored))) =
          Except.ok (some
            ((submit b1).attr.accepted + (brest.map (fun b => (submit b).attr.accepted)).sum,
             (submit b1).attr.ignored + (brest.map (fun b => (submit b).attr.ignored)).sum))) ∧
    (∀ (α β : Type) (submit : List α → TrackScrobbleM β) (tracks : List α) (n : Int)
        (b1 b2 : List α),
        divide_chunks tracks (min n 50) = Except.ok [b1, b2] →
        (submit b1).attr = { accepted := 8, ignored := 2 } →
        (submit b2).attr = { accepted := 5, ignored := 0 } →
        ((submit b2).scrobble).isEmpty = false →
        (scrobbleTracksModel submit tracks n).map
            (Option.map (fun s => (s.attr.accepted, s.attr.ignored))) =
          Except.ok (some (13, 2))) := by
  have main : ∀ (α β : Type) (submit : List α → TrackScrobbleM β) (tracks : List α) (n : Int)
      (b1 : List α) (brest : List (List α)),
      divide_chunks tracks (min n 50) = Except.ok (b1 :: brest) →
      (∀ b ∈ brest, ((submit b).scrobble).isEmpty = false) →
      (scrobbleTracksModel submit tracks n).map
          (Option.map (fun s => (s.attr.accepted, s.attr.ignored))) =
        Except.ok (some
          ((submit b1).attr.accepted + (brest.map (fun b => (submit b).attr.accepted)).sum,
           (submit b1).attr.ignored + (brest.map (fun b => (submit b).attr.ignored)).sum)) := by
    intro α β submit tracks n b1 brest hdiv hne
    have hloop := scrobbleLoop_attr_sum (brest.map submit) (submit b1)
      (fun r hr => by
        rcases List.mem_map.mp hr with ⟨b, hb, hbr⟩
        rw [← hbr]
        exact hne b hb)
    rcases hloop with ⟨s', hs', hacc, hign⟩
    simp only [scrobbleTracksModel, hdiv, Except.map, List.map_cons]
    have hstep : scrobbleLoop Option.none (submit b1 :: brest.map submit) =
        scrobbleLoop (some (submit b1)) (brest.map submit) := rfl
    rw [hstep, hs']
    simp only [Option.map, List.map_map]
    rw [hacc, hign]
    simp only [List.map_map, Function.comp_def]
  refine ⟨main, ?_⟩
  intro α β submit tracks n b1 b2 hdiv h1 h2 hb2
  have h := main α β submit tracks n b1 [b2] hdiv
    (by
      intro b hb
      simp only [List.mem_singleton] at hb
      rw [hb]
      exact hb2)
  rw [h]
  simp only [List.map_cons, List.map_nil, List.sum_cons, List.sum_nil, h1, h2]
  norm_num

/-- Witness for C3: a concrete three-track input in chunks of two, with an
oracle reporting accepted=8, ignored=2 for the first chunk and accepted=5,
ignored=0 for the second, aggregates to accepted=13, ignored=2. -/
theorem scrobble_counter_aggregation_witness :
    (scrobbleTracksModel
        (fun b : List Nat =>
          if b.length = 2 then
            { scrobble := [0], attr := { accepted := 8, ignored := 2 } }
          else { scrobble := [0], attr := { accepted := 5, ignored := 0 } })
        [0, 1, 2] 2).map
        (Option.map (fun s : TrackScrobbleM Nat => (s.attr.accepted, s.attr.ignored))) =
      Except.ok (some (13, 2)) :=
  scrobble_counter_aggregation.2 Nat Nat
    (fun b : List Nat =>
      if b.length = 2 then
        { scrobble := [0], attr := { accepted := 8, ignored := 2 } }
      else { scrobble := [0], attr := { accepted := 5, ignored := 0 } })
    [0, 1, 2] 2 [0, 1] [2] rfl rfl rfl rfl

/-- Claim C10 counterexample: a negative batch size does not raise: with a
nonempty track list and batch size -1 the chunk list is empty, so
`scrobble_tracks` submits nothing and returns `None` instead of failing. -/
theorem negative_batch_returns_none :
    scrobbleTracksModel submitSelfExtend [7] (-1) = Except.ok Option.none := rfl

/-- Claim C10 as amended: a batch size of exactly 0 raises `ValueError`
from `range()` before any chunk is submitted, but a negative batch size
yields an empty chunk list, submits nothing and returns `None`; the clamp
`min(batch_size, 50)` only caps the size from above. -/
theorem nonpositive_batch_behavior :
    (∀ (α β : Type) (submit : List α → TrackScrobbleM β) (tracks : List α),
        scrobbleTracksModel submit tracks 0 =
          Except.error (PyErr.valueError "range() arg 3 must not be zero")) ∧
    (∀ (α β : Type) (submit : List α → TrackScrobbleM β) (tracks : List α) (n : Int),
        n < 0 → scrobbleTracksModel submit tracks n = Except.ok Option.none) := by
  constructor
  · intro α β submit tracks
    have h : (min (0 : Int) 50) = 0 := by norm_num
    simp [scrobbleTracksModel, divide_chunks, pyRange0, h, Except.map]
  · intro α β submit tracks n hn
    have h : (min n 50) = n := by omega
    have h0 : ¬n = 0 := by omega
    simp [scrobbleTracksModel, divide_chunks, pyRange0, h, h0, hn, Except.map, scrobbleLoop]

/-- Witness for C10's amended statement at concrete inputs. -/
theorem nonpositive_batch_behavior_witness :
    scrobbleTracksModel submitSelfExtend [7] 0 =
        Except.error (PyErr.valueError "range() arg 3 must not be zero") ∧
      scrobbleTracksModel submitSelfExtend [7] (-2) = Except.ok Option.none :=
  ⟨nonpositive_batch_behavior.1 Nat Nat submitSelfExtend [7],
    nonpositive_batch_behavior.2 Nat Nat submitSelfExtend [7] (-2) (by norm_num)⟩

theorem trackFromDictData_parts (d dfin : List (String × PVal))
    (h : trackFromDictData d = Except.ok dfin) :
    ∃ d1 d2, trackStep1 d = Except.ok d1 ∧ trackStep2 d1 = Except.ok d2 ∧
      baseFromDictLoop trackSchema (trackStep3 d2) = Except.ok dfin := by
  simp only [trackFromDictData, trackNormalize, bind, Except.bind] at h
  cases h1 : trackStep1 d with
  | error e => rw [h1] at h; cases h
  | ok d1 =>
    rw [h1] at h
    simp only [] at h
    cases h2 : trackStep2 d1 with
    | error e => rw [h2] at h; cases h
    | ok d2 =>
      rw [h2] at h
      exact ⟨d1, d2, rfl, h2, h⟩

theorem trackFromDict_parts (d : List (String × PVal)) (o : PVal)
    (h : trackFromDict d = Except.ok o) :
    ∃ d1 d2 dfin fs, trackStep1 d = Except.ok d1 ∧ trackStep2 d1 = Except.ok d2 ∧
      baseFromDictLoop trackSchema (trackStep3 d2) = Except.ok dfin ∧
      constructFields trackSchema dfin = Except.ok fs ∧ o = PVal.obj "Track" fs := by
  simp only [trackFromDict, bind, Except.bind] at h
  cases hd : trackFromDictData d with
  | error e => rw [hd] at h; cases h
  | ok dfin =>
    rw [hd] at h
    rcases trackFromDictData_parts d dfin hd with ⟨d1, d2, h1, h2, h3⟩
    simp only [construct] at h
    split at h
    · cases hf : constructFields trackSchema dfin with
      | error e => rw [hf] at h; cases h
      | ok fs =>
        rw [hf] at h
        simp only [Except.map] at h
        cases h
        exact ⟨d1, d2, dfin, fs, h1, h2, h3, hf, rfl⟩
    · cases h

theorem trackStep1_preserve (d d1 : List (String × PVal)) (k : String) (hk : k ≠ "top_tags")
    (h : trackStep1 d = Except.ok d1) : dictGet? d1 k = dictGet? d k := by
  simp only [trackStep1] at h
  split at h
  · cases h; rfl
  · split at h
    · cases h; rfl
    · cases h; exact dictGet?_dictSet_ne _ _ _ _ hk
  · cases h
  · cases h
  · cases h

theorem trackStep2_preserve (d d1 : List (String × PVal)) (k : String) (hk : k ≠ "album")
    (h : trackStep2 d = Except.ok d1) : dictGet? d1 k = dictGet? d k := by
  simp only [trackStep2] at h
  split at h
  · cases h; rfl
  · split at h
    · cases h; rfl
    · cases h; exact dictGet?_dictSet_ne _ _ _ _ hk
    · cases h; rfl
  · cases h
  · cases h
  · cases h

theorem trackStep2_promote (d : List (String × PVal)) (inner : List (String × PVal)) (s : String)
    (d1 : List (String × PVal)) (h : trackStep2 d = Except.ok d1)
    (ha : dictGet? d "album" = some (PVal.pydict inner))
    (hs : dictGet? inner "artist" = some (PVal.str s)) :
    dictGet? d1 "album" =
      some (PVal.pydict (dictSet inner "artist" (PVal.pydict [("name", PVal.str s)]))) := by
  simp only [trackStep2, ha, hs] at h
  cases h
  exact dictGet?_dictSet_self _ _ _

theorem trackStep3_preserve (d : List (String × PVal)) (k : String) (hk : k ≠ "artist") :
    dictGet? (trackStep3 d) k = dictGet? d k := by
  simp only [trackStep3]
  split
  · exact dictGet?_dictSet_ne _ _ _ _ hk
  · rfl

theorem trackStep3_promote (d : List (String × PVal)) (s : String)
    (h : dictGet? d "artist" = some (PVal.str s)) :
    dictGet? (trackStep3 d) "artist" = some (PVal.pydict [("name", PVal.str s)]) := by
  simp only [trackStep3, h]
  exact dictGet?_dictSet_self _ _ _

theorem trackStep3_artist_ne_str (d : List (String × PVal)) (s : String) :
    dictGet? (trackStep3 d) "artist" ≠ some (PVal.str s) := by
  simp only [trackStep3]
  split
  · rw [dictGet?_dictSet_self]
    intro h
    cases h
  · rename_i hnot
    intro h
    exact hnot s h

theorem trackSchema_artist_other :
    ∀ f ∈ trackSchema, f.name = "artist" → f.ftype = FType.other := by decide

theorem trackSchema_album_other :
    ∀ f ∈ trackSchema, f.name = "album" → f.ftype = FType.other := by decide

theorem trackSchema_toptags_other :
    ∀ f ∈ trackSchema, f.name = "top_tags" → f.ftype = FType.other := by decide

theorem trackSchema_artist_required :
    ∀ f ∈ trackSchema, f.name = "artist" → f.default.isNone = true := by decide

theorem trackSchema_mem_artist : "artist" ∈ trackSchema.map FieldSpec.name := by decide

theorem trackSchema_mem_album : "album" ∈ trackSchema.map FieldSpec.name := by decide

theorem trackSchema_mem_toptags : "top_tags" ∈ trackSchema.map FieldSpec.name := by decide

/-- Claim C4: for every Track payload accepted by `Track.from_dict`, the
resulting instance's artist field is never a bare string; a bare-string
artist (top-level or nested in the album composite) is promoted to a
name-only stub holding exactly that string. -/
theorem track_artist_promotion :
    (∀ (d : List (String × PVal)) (o : PVal) (s : String),
        trackFromDict d = Except.ok o → objGet o "artist" ≠ some (PVal.str s)) ∧
    (∀ (d : List (String × PVal)) (o : PVal) (s : String),
        trackFromDict d = Except.ok o → dictGet? d "artist" = some (PVal.str s) →
        objGet o "artist" = some (PVal.pydict [("name", PVal.str s)])) ∧
    (∀ (d : List (String × PVal)) (o : PVal) (inner : List (String × PVal)) (s : String),
        trackFromDict d = Except.ok o →
        dictGet? d "album" = some (PVal.pydict inner) →
        dictGet? inner "artist" = some (PVal.str s) →
        objGet o "album" =
          some (PVal.pydict (dictSet inner "artist" (PVal.pydict [("name", PVal.str s)])))) := by
  refine ⟨?_, ?_, ?_⟩
  · intro d o s hok hstr
    rcases trackFromDict_parts d o hok with ⟨d1, d2, dfin, fs, h1, h2, h3, hcf, rfl⟩
    simp only [objGet] at hstr
    rcases constructFields_source trackSchema "artist" (PVal.str s) dfin fs hcf hstr with
      hcase | ⟨_, f, hf, hfk, hfd⟩
    · have hloop := baseFromDictLoop_other trackSchema "artist" (trackStep3 d2) dfin
        trackSchema_artist_other h3
      rw [hloop] at hcase
      exact trackStep3_artist_ne_str d2 s hcase
    · have hreq := trackSchema_artist_required f hf hfk
      rw [hfd] at hreq
      simp at hreq
  · intro d o s hok hart
    rcases trackFromDict_parts d o hok with ⟨d1, d2, dfin, fs, h1, h2, h3, hcf, rfl⟩
    have p1 := trackStep1_preserve d d1 "artist" (by decide) h1
    have p2 := trackStep2_preserve d1 d2 "artist" (by decide) h2
    have hd2 : dictGet? d2 "artist" = some (PVal.str s) := by rw [p2, p1]; exact hart
    have hd3 := trackStep3_promote d2 s hd2
    have hloop := baseFromDictLoop_other trackSchema "artist" (trackStep3 d2) dfin
      trackSchema_artist_other h3
    have hfin : dictGet? dfin "artist" = some (PVal.pydict [("name", PVal.str s)]) := by
      rw [hloop]; exact hd3
    simp only [objGet]
    exact constructFields_get trackSchema "artist" _ dfin fs hcf hfin trackSchema_mem_artist
  · intro d o inner s hok halb hart
    rcases trackFromDict_parts d o hok with ⟨d1, d2, dfin, fs, h1, h2, h3, hcf, rfl⟩
    have p1 := trackStep1_preserve d d1 "album" (by decide) h1
    have hd1 : dictGet? d1 "album" = some (PVal.pydict inner) := by rw [p1]; exact halb
    have hd2 := trackStep2_promote d1 inner s d2 h2 hd1 hart
    have hd3 := (trackStep3_preserve d2 "album" (by decide)).trans hd2
    have hloop := baseFromDictLoop_other trackSchema "album" (trackStep3 d2) dfin
      trackSchema_album_other h3
    have hfin := hloop.trans hd3
    simp only [objGet]
    exact constructFields_get trackSchema "album" _ dfin fs hcf hfin trackSchema_mem_album

def trackPayloadW : List (String × PVal) :=
  [("name", PVal.str "Song"), ("artist", PVal.str "Drake")]

def trackObjW : PVal :=
  PVal.obj "Track"
    [("name", PVal.str "Song"), ("artist", PVal.pydict [("name", PVal.str "Drake")]),
     ("url", PVal.none), ("mbid", PVal.none), ("image", PVal.none), ("playcount", PVal.none),
     ("listeners", PVal.none), ("streamable", PVal.none), ("duration", PVal.none),
     ("match", PVal.none), ("wiki", PVal.none), ("album", PVal.none),
     ("top_tags", PVal.none), ("attr", PVal.none), ("date", PVal.none), ("loved", PVal.none)]

/-- Witness for C4 at the payload of the claim: artist given as the bare
string Drake comes out as the name-only stub. -/
theorem track_artist_promotion_witness :
    trackFromDict trackPayloadW = Except.ok trackObjW ∧
      objGet trackObjW "artist" = some (PVal.pydict [("name", PVal.str "Drake")]) :=
  ⟨rfl, track_artist_promotion.2.1 trackPayloadW trackObjW "Drake" rfl rfl⟩

theorem trackStep1_absent (d : List (String × PVal))
    (h : dictGet? d "top_tags" = Option.none) : trackStep1 d = Except.ok d := by
  simp [trackStep1, h]

theorem trackStep1_wrapper_no_tag (d inner : List (String × PVal))
    (h : dictGet? d "top_tags" = some (PVal.pydict inner))
    (ht : dictGet? inner "tag" = Option.none) : trackStep1 d = Except.ok d := by
  simp [trackStep1, h, ht]

theorem trackSchema_toptags_default :
    ∀ f ∈ trackSchema, f.name = "top_tags" → f.default = some PVal.none := by
  intro f hf
  fin_cases hf <;> intro h <;> first | rfl | exact absurd h (by decide)

theorem wikiSchema_links_default :
    ∀ f ∈ wikiSchema, f.name = "links" → f.default = some PVal.none := by
  intro f hf
  fin_cases hf <;> intro h <;> rfl

theorem wikiSchema_mem_links : "links" ∈ wikiSchema.map FieldSpec.name := by decide

theorem wikiFromDict_parts (d : List (String × PVal)) (o : PVal)
    (h : wikiFromDict d = Except.ok o) :
    ∃ d1 d2 fs, wikiNormalize d = Except.ok d1 ∧ baseFromDictLoop wikiSchema d1 = Except.ok d2 ∧
      constructFields wikiSchema d2 = Except.ok fs ∧ o = PVal.obj "Wiki" fs := by
  simp only [wikiFromDict, bind, Except.bind] at h
  cases h1 : wikiNormalize d with
  | error e => rw [h1] at h; cases h
  | ok d1 =>
    rw [h1] at h
    simp only [] at h
    cases h2 : baseFromDictLoop wikiSchema d1 with
    | error e => rw [h2] at h; cases h
    | ok d2 =>
      rw [h2] at h
      simp only [construct] at h
      split at h
      · cases hf : constructFields wikiSchema d2 with
        | error e => rw [hf] at h; cases h
        | ok fs =>
          rw [hf] at h
          simp only [Except.map] at h
          cases h
          exact ⟨d1, d2, fs, rfl, h2, hf, rfl⟩
      · cases h

/-- Claim C9 counterexample: `Track.from_dict` mutates the caller's
mapping in place.  On the payload with a bare-string artist the caller's
dictionary afterwards holds the promoted stub, not the original string. -/
theorem from_dict_mutates_input :
    trackFromDictData [("name", PVal.str "x"), ("artist", PVal.str "Drake")] =
        Except.ok [("name", PVal.str "x"), ("artist", PVal.pydict [("name", PVal.str "Drake")])] ∧
      [("name", PVal.str "x"), ("artist", PVal.pydict [("name", PVal.str "Drake")])] ≠
        [("name", PVal.str "x"), ("artist", PVal.str "Drake")] :=
  ⟨rfl, by simp⟩

/-- Claim C9 as amended: `from_dict` normalizes the caller's mapping in
place; whenever the payload carries a bare-string artist and construction
succeeds, the caller's dictionary afterwards holds the promoted name-only
stub in place of the string. -/
theorem from_dict_inplace_promotion :
    ∀ (d dfin : List (String × PVal)) (s : String),
      trackFromDictData d = Except.ok dfin →
      dictGet? d "artist" = some (PVal.str s) →
      dictGet? dfin "artist" = some (PVal.pydict [("name", PVal.str s)]) := by
  intro d dfin s h hart
  rcases trackFromDictData_parts d dfin h with ⟨d1, d2, h1, h2, h3⟩
  have p1 := trackStep1_preserve d d1 "artist" (by decide) h1
  have p2 := trackStep2_preserve d1 d2 "artist" (by decide) h2
  have hd2 : dictGet? d2 "artist" = some (PVal.str s) := by rw [p2, p1]; exact hart
  have hd3 := trackStep3_promote d2 s hd2
  have hloop := baseFromDictLoop_other trackSchema "artist" (trackStep3 d2) dfin
    trackSchema_artist_other h3
  rw [hloop]
  exact hd3

/-- Witness for C9's amended statement at a concrete payload. -/
theorem from_dict_inplace_promotion_witness :
    trackFromDictData trackPayloadW =
        Except.ok [("name", PVal.str "Song"),
          ("artist", PVal.pydict [("name", PVal.str "Drake")])] ∧
      dictGet? [("name", PVal.str "Song"),
          ("artist", PVal.pydict [("name", PVal.str "Drake")])] "artist" =
        some (PVal.pydict [("name", PVal.str "Drake")]) :=
  ⟨rfl, from_dict_inplace_promotion trackPayloadW
    [("name", PVal.str "Song"), ("artist", PVal.pydict [("name", PVal.str "Drake")])]
    "Drake" rfl rfl⟩

/-- Claim C7 counterexample: a wrapper object present without its inner
list key is not tolerated: `Wiki.from_dict` on a payload whose `links`
wrapper lacks the `link` key raises `KeyError` instead of treating the
field as absent. -/
theorem wiki_missing_link_key_error :
    wikiFromDict [("links", PVal.pydict [])] = Except.error (PyErr.keyError "link") := rfl

/-- Claim C7 as amended: a payload missing the wrapper key entirely is
tolerated (Track's `top_tags` and Wiki's `links` come out absent), but a
wrapper present without its inner key is not treated as absent: Track
keeps the raw wrapper dict in the field, and Wiki raises `KeyError`. -/
theorem absent_wrapper_policy :
    (∀ (d : List (String × PVal)) (o : PVal),
        dictGet? d "top_tags" = Option.none → trackFromDict d = Except.ok o →
        objGet o "top_tags" = some PVal.none) ∧
    (∀ (d : List (String × PVal)) (o : PVal) (inner : List (String × PVal)),
        dictGet? d "top_tags" = some (PVal.pydict inner) →
        dictGet? inner "tag" = Option.none →
        trackFromDict d = Except.ok o →
        objGet o "top_tags" = some (PVal.pydict inner)) ∧
    (∀ (d : List (String × PVal)) (o : PVal),
        dictGet? d "links" = Option.none → wikiFromDict d = Except.ok o →
        objGet o "links" = some PVal.none) ∧
    (∀ (d inner : List (String × PVal)),
        dictGet? d "links" = some (PVal.pydict inner) →
        dictGet? inner "link" = Option.none →
        wikiFromDict d = Except.error (PyErr.keyError "link")) := by
  refine ⟨?_, ?_, ?_, ?_⟩
  · intro d o habs hok
    rcases trackFromDict_parts d o hok with ⟨d1, d2, dfin, fs, h1, h2, h3, hcf, rfl⟩
    have hd1 : d1 = d := by
      have := trackStep1_absent d habs
      rw [this] at h1
      cases h1
      rfl
    rw [hd1] at h2
    have p2 := trackStep2_preserve d d2 "top_tags" (by decide) h2
    have hd2 : dictGet? d2 "top_tags" = Option.none := by rw [p2]; exact habs
    have hd3 : dictGet? (trackStep3 d2) "top_tags" = Option.none := by
      rw [trackStep3_preserve d2 "top_tags" (by decide)]; exact hd2
    have hfin := baseFromDictLoop_absent trackSchema "top_tags" (trackStep3 d2) dfin h3 hd3
    simp only [objGet]
    exact constructFields_default trackSchema "top_tags" PVal.none dfin fs hcf hfin
      trackSchema_toptags_default trackSchema_mem_toptags
  · intro d o inner hwrap htag hok
    rcases trackFromDict_parts d o hok with ⟨d1, d2, dfin, fs, h1, h2, h3, hcf, rfl⟩
    have hd1 : d1 = d := by
      have := trackStep1_wrapper_no_tag d inner hwrap htag
      rw [this] at h1
      cases h1
      rfl
    rw [hd1] at h2
    have p2 := trackStep2_preserve d d2 "top_tags" (by decide) h2
    have hd2 : dictGet? d2 "top_tags" = some (PVal.pydict inner) := by rw [p2]; exact hwrap
    have hd3 : dictGet? (trackStep3 d2) "top_tags" = some (PVal.pydict inner) := by
      rw [trackStep3_preserve d2 "top_tags" (by decide)]; exact hd2
    have hloop := baseFromDictLoop_other trackSchema "top_tags" (trackStep3 d2) dfin
      trackSchema_toptags_other h3
    have hfin := hloop.trans hd3
    simp only [objGet]
    exact constructFields_get trackSchema "top_tags" _ dfin fs hcf hfin trackSchema_mem_toptags
  · intro d o habs hok
    rcases wikiFromDict_parts d o hok with ⟨d1, d2, fs, h1, h2, hcf, rfl⟩
    have hd1 : d1 = d := by
      simp only [wikiNormalize, habs] at h1
      cases h1
      rfl
    rw [hd1] at h2
    have hfin := baseFromDictLoop_absent wikiSchema "links" d d2 h2 habs
    simp only [objGet]
    exact constructFields_default wikiSchema "links" PVal.none d2 fs hcf hfin
      wikiSchema_links_default wikiSchema_mem_links
  · intro d inner hl hlink
    simp [wikiFromDict, bind, Except.bind, wikiNormalize, hl, hlink]

/-- Witness for C7's amended statement at concrete payloads. -/
theorem absent_wrapper_policy_witness :
    objGet trackObjW "top_tags" = some PVal.none ∧
      wikiFromDict [("links", PVal.pydict [("foo", PVal.int 1)])] =
        Except.error (PyErr.keyError "link") :=
  ⟨absent_wrapper_policy.1 trackPayloadW trackObjW rfl rfl,
    absent_wrapper_policy.2.2.2 [("links", PVal.pydict [("foo", PVal.int 1)])]
      [("foo", PVal.int 1)] rfl rfl⟩

/-- Claim C6: singular-to-list collapse.  A documented list field arriving
as a single object normalizes exactly as the same payload with the object
already wrapped in a one-element list: for Wiki's `links.link` inner value
and for TrackScrobble's `scrobble` value (the latter provided the object is
nonempty, since the source's `data.get("scrobble")` truth test skips an
empty dict). -/
theorem singular_collapse :
    (∀ (data inner v : List (String × PVal)),
        dictGet? data "links" = some (PVal.pydict inner) →
        dictGet? inner "link" = some (PVal.pydict v) →
        wikiFromDict data =
          wikiFromDict (dictSet data "links"
            (PVal.pydict (dictSet inner "link" (PVal.pylist [PVal.pydict v]))))) ∧
    (∀ (data v : List (String × PVal)),
        dictGet? data "scrobble" = some (PVal.pydict v) → v ≠ [] →
        trackScrobbleFromDict data =
          trackScrobbleFromDict (dictSet data "scrobble" (PVal.pylist [PVal.pydict v]))) := by
  constructor
  · intro data inner v hl hlink
    have hn : wikiNormalize data =
        wikiNormalize (dictSet data "links"
          (PVal.pydict (dictSet inner "link" (PVal.pylist [PVal.pydict v])))) := by
      simp [wikiNormalize, hl, hlink, dictGet?_dictSet_self, isPydict, dictSet_dictSet]
    simp only [wikiFromDict, bind, Except.bind]
    rw [hn]
  · intro data v hv hne
    have hemp : v.isEmpty = false := by
      cases v with
      | nil => exact absurd rfl hne
      | cons a t => rfl
    simp [trackScrobbleFromDict, hv, dictGet?_dictSet_self, hemp, dictSet_dictSet]

theorem textUnwrap_text (d : List (String × PVal)) (k s : String)
    (h : dictGet? d k = some (PVal.pydict [("text", PVal.str s)])) :
    textUnwrap d k = Except.ok (if s.isEmpty then PVal.none else PVal.str s) := by
  have hin : dictGet? [("text", PVal.str s)] "text" = some (PVal.str s) := rfl
  cases hse : s.isEmpty with
  | true => simp [textUnwrap, h, hin, hse]
  | false => simp [textUnwrap, h, hin, hse]

theorem scrobbleTrackNormalize_parts (d dn : List (String × PVal))
    (h : scrobbleTrackNormalize d = Except.ok dn) :
    ∃ va vr vt vaa, textUnwrap d "album" = Except.ok va ∧
      textUnwrap d "artist" = Except.ok vr ∧
      textUnwrap d "track" = Except.ok vt ∧
      textUnwrap d "album_artist" = Except.ok vaa ∧
      dn = dictSet (dictSet (dictSet (dictSet d "album" va) "artist" vr) "track" vt)
        "album_artist" vaa := by
  simp only [scrobbleTrackNormalize, bind, Except.bind] at h
  cases h1 : textUnwrap d "album" with
  | error e => rw [h1] at h; cases h
  | ok va =>
    rw [h1] at h
    simp only [] at h
    cases h2 : textUnwrap d "artist" with
    | error e => rw [h2] at h; cases h
    | ok vr =>
      rw [h2] at h
      simp only [] at h
      cases h3 : textUnwrap d "track" with
      | error e => rw [h3] at h; cases h
      | ok vt =>
        rw [h3] at h
        simp only [] at h
        cases h4 : textUnwrap d "album_artist" with
        | error e => rw [h4] at h; cases h
        | ok vaa =>
          rw [h4] at h
          cases h
          exact ⟨va, vr, vt, vaa, rfl, rfl, rfl, rfl, rfl⟩

theorem scrobbleTrackFromDict_parts (now : Int) (d : List (String × PVal)) (o : PVal)
    (h : scrobbleTrackFromDict now d = Except.ok o) :
    ∃ dn d2 fs, scrobbleTrackNormalize d = Except.ok dn ∧
      baseFromDictLoop (scrobbleTrackSchema now) dn = Except.ok d2 ∧
      constructFields (scrobbleTrackSchema now) d2 = Except.ok fs ∧
      o = PVal.obj "ScrobbleTrack" fs := by
  simp only [scrobbleTrackFromDict, bind, Except.bind] at h
  cases h1 : scrobbleTrackNormalize d with
  | error e => rw [h1] at h; cases h
  | ok dn =>
    rw [h1] at h
    simp only [] at h
    cases h2 : baseFromDictLoop (scrobbleTrackSchema now) dn with
    | error e => rw [h2] at h; cases h
    | ok d2 =>
      rw [h2] at h
      simp only [construct] at h
      split at h
      · cases hf : constructFields (scrobbleTrackSchema now) d2 with
        | error e => rw [hf] at h; cases h
        | ok fs =>
          rw [hf] at h
          simp only [Except.map] at h
          cases h
          exact ⟨dn, d2, fs, rfl, h2, hf, rfl⟩
      · cases h

theorem scrobbleTrackSchema_names (now : Int) :
    (scrobbleTrackSchema now).map FieldSpec.name =
      ["artist", "track", "timestamp", "track_number", "album", "album_artist",
       "duration", "mbid", "context", "stream_id", "chosen_by_user"] := rfl

theorem scrobbleTrackSchema_string (now : Int) (k : String)
    (hk : k = "album" ∨ k = "artist" ∨ k = "track" ∨ k = "album_artist") :
    ∀ f ∈ scrobbleTrackSchema now, f.name = k → f.ftype = FType.string := by
  intro f hf hname
  simp only [scrobbleTrackSchema, List.mem_cons, List.not_mem_nil, or_false] at hf
  rcases hk with rfl | rfl | rfl | rfl <;>
    rcases hf with rfl | rfl | rfl | rfl | rfl | rfl | rfl | rfl | rfl | rfl | rfl <;>
      simp_all

/-- Claim C8: in `ScrobbleTrack.from_dict`, a text-wrapped field value
`{"text": v}` for any of the four outbound fields is flattened to `v`, and
`{"text": ""}` normalizes to the absent marker `None`, not the empty
string. -/
theorem scrobble_text_unwrap :
    ∀ (now : Int) (d : List (String × PVal)) (o : PVal) (k s : String),
      (k = "album" ∨ k = "artist" ∨ k = "track" ∨ k = "album_artist") →
      dictGet? d k = some (PVal.pydict [("text", PVal.str s)]) →
      scrobbleTrackFromDict now d = Except.ok o →
      objGet o k = some (if s = "" then PVal.none else PVal.str s) := by
  intro now d o k s hk h hok
  rcases scrobbleTrackFromDict_parts now d o hok with ⟨dn, d2, fs, hn, hloop, hcf, rfl⟩
  rcases scrobbleTrackNormalize_parts d dn hn with ⟨va, vr, vt, vaa, ha, hr, ht, haa, rfl⟩
  have hkv : dictGet? (dictSet (dictSet (dictSet (dictSet d "album" va) "artist" vr)
      "track" vt) "album_artist" vaa) k = some (if s.isEmpty then PVal.none else PVal.str s) := by
    rcases hk with rfl | rfl | rfl | rfl
    · rw [dictGet?_dictSet_ne _ _ _ _ (by decide), dictGet?_dictSet_ne _ _ _ _ (by decide),
        dictGet?_dictSet_ne _ _ _ _ (by decide), dictGet?_dictSet_self]
      rw [textUnwrap_text d "album" s h] at ha
      cases ha
      rfl
    · rw [dictGet?_dictSet_ne _ _ _ _ (by decide), dictGet?_dictSet_ne _ _ _ _ (by decide),
        dictGet?_dictSet_self]
      rw [textUnwrap_text d "artist" s h] at hr
      cases hr
      rfl
    · rw [dictGet?_dictSet_ne _ _ _ _ (by decide), dictGet?_dictSet_self]
      rw [textUnwrap_text d "track" s h] at ht
      cases ht
      rfl
    · rw [dictGet?_dictSet_self]
      rw [textUnwrap_text d "album_artist" s h] at haa
      cases haa
      rfl
  have hmem : k ∈ (scrobbleTrackSchema now).map FieldSpec.name := by
    rw [scrobbleTrackSchema_names]
    rcases hk with rfl | rfl | rfl | rfl <;> decide
  have hfin : dictGet? d2 k = some (if s.isEmpty then PVal.none else PVal.str s) := by
    cases hse : s.isEmpty with
    | true =>
      rw [hse] at hkv
      simp only [if_true] at hkv
      have := baseFromDictLoop_none_value (scrobbleTrackSchema now) k _ d2 hloop hkv
      rw [this]
      simp
    | false =>
      rw [hse] at hkv
      simp only [Bool.false_eq_true, if_false] at hkv
      have := baseFromDictLoop_string (scrobbleTrackSchema now) k s _ d2
        (scrobbleTrackSchema_string now k hk) hloop hkv
      rw [this]
      simp [hse]
  have hobj := constructFields_get (scrobbleTrackSchema now) k _ d2 fs hcf hfin hmem
  simp only [objGet]
  rw [hobj]
  by_cases hs : s = ""
  · subst hs
    simp [show ("" : String).isEmpty = true from rfl]
  · have hse : s.isEmpty = false := by
      cases hb : s.isEmpty with
      | false => rfl
      | true => exact absurd ((String.isEmpty_iff s).mp hb) hs
    simp [hse, hs]

def linkObjPayload : List (String × PVal) :=
  [("href", PVal.str "h"), ("rel", PVal.str "r"), ("text", PVal.str "t")]

def wikiSingularPayload : List (String × PVal) :=
  [("links", PVal.pydict [("link", PVal.pydict linkObjPayload)])]

def scrobbleSingularPayload : List (String × PVal) :=
  [("scrobble", PVal.pydict [("track", PVal.str "T")]),
   ("attr", PVal.pydict [("accepted", PVal.int 1)])]

/-- Witness for C6 at concrete payloads: a single link object and a single
scrobble outcome object normalize as their one-element-list forms. -/
theorem singular_collapse_witness :
    wikiFromDict wikiSingularPayload =
        wikiFromDict (dictSet wikiSingularPayload "links"
          (PVal.pydict (dictSet [("link", PVal.pydict linkObjPayload)] "link"
            (PVal.pylist [PVal.pydict linkObjPayload])))) ∧
      trackScrobbleFromDict scrobbleSingularPayload =
        trackScrobbleFromDict (dictSet scrobbleSingularPayload "scrobble"
          (PVal.pylist [PVal.pydict [("track", PVal.str "T")]])) :=
  ⟨singular_collapse.1 wikiSingularPayload [("link", PVal.pydict linkObjPayload)]
      linkObjPayload rfl rfl,
    singular_collapse.2 scrobbleSingularPayload [("track", PVal.str "T")] rfl (by simp)⟩

def scrobblePayloadW : List (String × PVal) :=
  [("artist", PVal.pydict [("text", PVal.str "Queen")]),
   ("track", PVal.pydict [("text", PVal.str "Bohemian")]),
   ("timestamp", PVal.int 5),
   ("album", PVal.pydict [("text", PVal.str "")])]

def scrobbleObjW : PVal :=
  PVal.obj "ScrobbleTrack"
    [("artist", PVal.str "Queen"), ("track", PVal.str "Bohemian"), ("timestamp", PVal.int 5),
     ("track_number", PVal.none), ("album", PVal.none), ("album_artist", PVal.none),
     ("duration", PVal.none), ("mbid", PVal.none), ("context", PVal.none),
     ("stream_id", PVal.none), ("chosen_by_user", PVal.none)]

/-- Witness for C8 at a concrete payload: `{"text": "Queen"}` flattens to
the string, `{"text": ""}` comes out as the absent marker. -/
theorem scrobble_text_unwrap_witness :
    scrobbleTrackFromDict 99 scrobblePayloadW = Except.ok scrobbleObjW ∧
      objGet scrobbleObjW "artist" =
        some (if "Queen" = "" then PVal.none else PVal.str "Queen") ∧
      objGet scrobbleObjW "album" = some (if "" = "" then PVal.none else PVal.str "") :=
  ⟨rfl,
    scrobble_text_unwrap 99 scrobblePayloadW scrobbleObjW "artist" "Queen"
      (Or.inr (Or.inl rfl)) rfl rfl,
    scrobble_text_unwrap 99 scrobblePayloadW scrobbleObjW "album" ""
      (Or.inl rfl) rfl rfl⟩

/-- A Wiki instance with all known fields populated, its links sequence
holding one fully populated Link instance. -/
def wikiFull : PVal :=
  PVal.obj "Wiki"
    [("content", PVal.str "c"), ("summary", PVal.str "s"), ("published", PVal.str "p"),
     ("links", PVal.pylist [PVal.obj "Link" linkObjPayload])]

/-- Claim C5 counterexample: for a fully populated Wiki the round trip
`normalize_out ∘ normalize_in ∘ normalize_out` does not reproduce the flat
mapping: `to_dict` serializes the links sequence to a list of raw dicts,
and `Wiki.from_dict` then crashes subscripting that list with a string
key, so the inner normalization fails instead of returning the mapping. -/
theorem roundtrip_fails_on_nested :
    (wikiFromDict (objToDict wikiFull)).map objToDict =
        Except.error (PyErr.typeError "list indices must be integers") ∧
      (wikiFromDict (objToDict wikiFull)).map objToDict ≠ Except.ok (objToDict wikiFull) :=
  ⟨rfl, by
    intro h
    rw [show (wikiFromDict (objToDict wikiFull)).map objToDict =
        Except.error (PyErr.typeError "list indices must be integers") from rfl] at h
    cases h⟩

/-- A Corrected instance built from optional scalar field values. -/
def mkCorrected (t c : Option String) (n : Option Int) : PVal :=
  PVal.obj "Corrected"
    [("text", t.elim PVal.none PVal.str),
     ("code", c.elim PVal.none PVal.str),
     ("corrected", n.elim PVal.none PVal.int)]

/-- A ScrobbleTrack instance whose populated fields are all scalar: its
own custom `from_dict` still fails the round trip. -/
def scrobbleScalarObj : PVal :=
  PVal.obj "ScrobbleTrack"
    [("artist", PVal.str "Queen"), ("track", PVal.str "T"), ("timestamp", PVal.int 5),
     ("track_number", PVal.none), ("album", PVal.none), ("album_artist", PVal.none),
     ("duration", PVal.none), ("mbid", PVal.none), ("context", PVal.none),
     ("stream_id", PVal.none), ("chosen_by_user", PVal.none)]

/-- Values of a declared scalar type: the shapes that survive the round
trip unchanged. -/
def scalarValue : FType → PVal → Bool
  | FType.string, PVal.str _ => true
  | FType.int, PVal.int _ => true
  | FType.float, PVal.float _ => true
  | _, _ => false

theorem scalar_not_none (t : FType) (v : PVal) (h : scalarValue t v = true) :
    isNoneV v = false := by
  cases t <;> cases v <;> simp [scalarValue, isNoneV] at h ⊢

theorem coerce_scalar_id (t : FType) (v : PVal) (h : scalarValue t v = true) :
    coerceField t v = Except.ok v := by
  cases t <;> cases v <;> first | rfl | simp [scalarValue] at h

theorem dictSet_self_of_get (d : List (String × PVal)) (k : String) (v : PVal)
    (h : dictGet? d k = some v) : dictSet d k v = d := by
  induction d with
  | nil => simp [dictGet?, List.find?] at h
  | cons p rest ih =>
    cases p with
    | mk k0 v0 =>
      by_cases hk : k0 = k
      · subst hk
        rw [dictGet?_cons] at h
        simp only [beq_self_eq_true, if_true] at h
        cases h
        simp [dictSet]
      · have hb : (k0 == k) = false := by simp [hk]
        rw [dictGet?_cons] at h
        simp only [hb, Bool.false_eq_true, if_false] at h
        simp [dictSet, hb, ih h]

/-- On fields that are all scalar values, `to_dict` is the identity:
nothing is `None`, nothing is a raw dict, and scalars convert to
themselves. -/
theorem toDictFields_scalar :
    ∀ (schema : List FieldSpec) (fs : List (String × PVal)),
      List.Forall₂ (fun f p => p.1 = f.name ∧ scalarValue f.ftype p.2 = true) schema fs →
      toDictFields fs = fs := by
  intro schema fs h
  induction h with
  | nil => rfl
  | cons hhead htail ih =>
    rename_i f p schema' fs'
    cases p with
    | mk k0 v0 =>
      have hv := hhead.2
      have htrio : isNoneV v0 = false ∧ isPydict v0 = false ∧ asdictVal v0 = v0 := by
        cases hft : f.ftype <;> cases v0 <;>
          simp [scalarValue, hft] at hv <;> exact ⟨rfl, rfl, rfl⟩
      simp [toDictFields, htrio.1, htrio.2.1, htrio.2.2, ih]

theorem inst_names :
    ∀ (schema : List FieldSpec) (fs : List (String × PVal)),
      List.Forall₂ (fun f p => p.1 = f.name ∧ scalarValue f.ftype p.2 = true) schema fs →
      fs.map Prod.fst = schema.map FieldSpec.name := by
  intro schema fs h
  induction h with
  | nil => rfl
  | cons hhead htail ih =>
    simp [List.map_cons, hhead.1, ih]

theorem forall2_dict_mono (d d' : List (String × PVal)) :
    ∀ (schema : List FieldSpec) (fs : List (String × PVal)),
      List.Forall₂ (fun f p => p.1 = f.name ∧ dictGet? d f.name = some p.2 ∧
        scalarValue f.ftype p.2 = true) schema fs →
      (∀ g ∈ schema, dictGet? d' g.name = dictGet? d g.name) →
      List.Forall₂ (fun f p => p.1 = f.name ∧ dictGet? d' f.name = some p.2 ∧
        scalarValue f.ftype p.2 = true) schema fs := by
  intro schema fs h
  induction h with
  | nil => intro _; exact List.Forall₂.nil
  | cons hhead htail ih =>
    rename_i f p schema' fs'
    intro hsub
    exact List.Forall₂.cons
      ⟨hhead.1, by rw [hsub f (List.mem_cons_self f schema')]; exact hhead.2.1, hhead.2.2⟩
      (ih (fun g hg => hsub g (List.mem_cons_of_mem f hg)))

/-- With distinct field names, each schema field looks up its own aligned
value in the instance mapping. -/
theorem inst_align :
    ∀ (schema : List FieldSpec) (fs : List (String × PVal)),
      List.Forall₂ (fun f p => p.1 = f.name ∧ scalarValue f.ftype p.2 = true) schema fs →
      (schema.map FieldSpec.name).Nodup →
      List.Forall₂ (fun f p => p.1 = f.name ∧ dictGet? fs f.name = some p.2 ∧
        scalarValue f.ftype p.2 = true) schema fs := by
  intro schema fs h
  induction h with
  | nil => intro _; exact List.Forall₂.nil
  | cons hhead htail ih =>
    rename_i f p schema' fs'
    intro hnd
    rw [List.map_cons, List.nodup_cons] at hnd
    have htail2 := ih hnd.2
    cases p with
    | mk k0 v0 =>
      have hk0 : k0 = f.name := hhead.1
      refine List.Forall₂.cons ⟨hhead.1, ?_, hhead.2⟩ ?_
      · rw [dictGet?_cons]
        simp [hk0]
      · refine forall2_dict_mono fs' ((k0, v0) :: fs') schema' fs' htail2 ?_
        intro g hg
        rw [dictGet?_cons]
        have hne : f.name ≠ g.name := fun he => hnd.1 (he ▸ List.mem_map_of_mem FieldSpec.name hg)
        have hb : (k0 == g.name) = false := by
          simp [hk0]
          exact hne
        simp [hb]

theorem baseFromDictLoop_cons_some (f : FieldSpec) (schema : List FieldSpec)
    (d : List (String × PVal)) (v v' : PVal)
    (hget : dictGet? d f.name = some v) (hv : isNoneV v = false)
    (hco : coerceField f.ftype v = Except.ok v') :
    baseFromDictLoop (f :: schema) d = baseFromDictLoop schema (dictSet d f.name v') := by
  cases v <;> simp [isNoneV] at hv <;> simp [baseFromDictLoop, hget, hco]

/-- On an instance mapping of all-scalar values aligned with the schema,
the coercion loop is the identity and the constructor reproduces exactly
the instance's fields. -/
theorem scalar_loop_construct :
    ∀ (schema : List FieldSpec) (fs d : List (String × PVal)),
      List.Forall₂ (fun f p => p.1 = f.name ∧ dictGet? d f.name = some p.2 ∧
        scalarValue f.ftype p.2 = true) schema fs →
      baseFromDictLoop schema d = Except.ok d ∧ constructFields schema d = Except.ok fs := by
  intro schema fs d h
  induction h with
  | nil => exact ⟨rfl, rfl⟩
  | cons hhead htail ih =>
    rename_i f p schema' fs'
    cases p with
    | mk k0 v0 =>
      obtain ⟨hname, hget, hscal⟩ := hhead
      have hco := coerce_scalar_id f.ftype v0 hscal
      have hset := dictSet_self_of_get d f.name v0 hget
      constructor
      · rw [baseFromDictLoop_cons_some f schema' d v0 v0 hget
          (scalar_not_none f.ftype v0 hscal) hco, hset]
        exact ih.1
      · simp only [constructFields, hget, ih.2, Except.map]
        simp only at hname
        rw [hname]

/-- Claim C5 as amended: the outbound round trip is the identity exactly
for the inherited generic `from_dict` over all-scalar schemas.  First
conjunct: for every class with distinct field names whose declared fields
are all scalar and every instance populating each field with a value of
its declared scalar type, serializing, re-normalizing through the generic
`from_dict` pipeline and serializing again yields the same flat mapping.
Second conjunct: the concrete instantiation to the `Corrected` entity of
the source.  Third conjunct: the scope cannot be widened to every class
even for scalar-only values: a scalar-only `ScrobbleTrack` fails its own
custom `from_dict` with `AttributeError` re-normalizing its flattened
string fields. -/
theorem roundtrip_flat_values :
    (∀ (cls : String) (schema : List FieldSpec) (fs : List (String × PVal)),
        (schema.map FieldSpec.name).Nodup →
        List.Forall₂ (fun f p => p.1 = f.name ∧ scalarValue f.ftype p.2 = true) schema fs →
        ((baseFromDictLoop schema (toDictFields fs)).bind (construct cls schema)).map objToDict =
          Except.ok (toDictFields fs)) ∧
    (∀ (t c : Option String) (n : Option Int),
        (correctedFromDict (objToDict (mkCorrected t c n))).map objToDict =
          Except.ok (objToDict (mkCorrected t c n))) ∧
    scrobbleTrackFromDict 99 (objToDict scrobbleScalarObj) =
      Except.error (PyErr.attributeError "object has no attribute get") := by
  refine ⟨?_, ?_, rfl⟩
  · intro cls schema fs hnd hinst
    have hd : toDictFields fs = fs := toDictFields_scalar schema fs hinst
    have halign := inst_align schema fs hinst hnd
    have hcore := scalar_loop_construct schema fs fs halign
    have hall : fs.all (fun p => schema.any (fun f => f.name == p.1)) = true := by
      rw [List.all_eq_true]
      intro p hp
      have hmem : p.1 ∈ schema.map FieldSpec.name := by
        rw [← inst_names schema fs hinst]
        exact List.mem_map_of_mem Prod.fst hp
      rcases List.mem_map.mp hmem with ⟨f, hf, hfn⟩
      rw [List.any_eq_true]
      exact ⟨f, hf, by simp [hfn]⟩
    rw [hd, hcore.1]
    simp only [Except.bind, construct, hall, if_true, hcore.2, Except.map, objToDict, hd]
  · intro t c n
    rcases t with _ | t <;> rcases c with _ | c <;> rcases n with _ | n <;> rfl

/-- Witness for C5's amended statement: the generic scalar round trip
applied to a concrete fully populated Corrected instance. -/
theorem roundtrip_flat_values_witness :
    ((baseFromDictLoop correctedSchema (toDictFields
          [("text", PVal.str "a"), ("code", PVal.str "b"), ("corrected", PVal.int 7)])).bind
        (construct "Corrected" correctedSchema)).map objToDict =
      Except.ok (toDictFields
        [("text", PVal.str "a"), ("code", PVal.str "b"), ("corrected", PVal.int 7)]) :=
  roundtrip_flat_values.1 "Corrected" correctedSchema
    [("text", PVal.str "a"), ("code", PVal.str "b"), ("corrected", PVal.int 7)]
    (by decide) (by repeat constructor)
